import Mathlib

/-!
Verification of the SpotPriceApp price core: the price data model
(`domain/entities.py`), the current/next-hour selection and the daily
windowing (`data/api_client.py`), the JSON-to-PricePoint parsing, and the
threshold evaluation used for alerts (`presentation/main_window.py`).

Timestamps are modelled as microseconds since the Unix epoch (UTC), as
`Int`; Python's timezone-aware `datetime` comparison is exactly the
comparison of those instants, and `timedelta` arithmetic is `Int`
arithmetic at microsecond granularity.  Prices are modelled as `Rat`: the
code only ever compares prices and copies them around, never performs
rounding float arithmetic on them, so the ordered field of rationals is a
faithful model of the comparisons.
-/

namespace SpotPrice

/-- `PricePoint` from `domain/entities.py`: a price valid on the time
interval from `start_date` to `end_date` (instants in microseconds since
the epoch, UTC). -/
structure PricePoint where
  price : Rat
  start_date : Int
  end_date : Int
deriving DecidableEq, Repr

/-- `PriceLimits` from `domain/entities.py`: lower and upper alert
limits. -/
structure PriceLimits where
  lower_limit : Rat
  upper_limit : Rat
deriving DecidableEq, Repr

/-- `PriceLimits.is_price_within_limits` from `domain/entities.py`:
`return self.lower_limit <= price <= self.upper_limit`. -/
def PriceLimits.is_price_within_limits (limits : PriceLimits) (price : Rat) : Bool :=
  decide (limits.lower_limit ≤ price) && decide (price ≤ limits.upper_limit)

/-- The three-way classification of a price against limits. -/
inductive PriceClass where
  | below
  | within
  | above
deriving DecidableEq, Repr

/-- The three-way threshold classification implemented by the repository:
`main_window.py`'s `show_notification` distinguishes the two alert cases by
`if price < self.price_limits.lower_limit: ... elif price >
self.price_limits.upper_limit: ...`, and the remaining case is the one
`entities.py`'s `is_price_within_limits` reports as within limits. -/
def classify_price (limits : PriceLimits) (price : Rat) : PriceClass :=
  if price < limits.lower_limit then .below
  else if limits.upper_limit < price then .above
  else .within

/-- The error cases of `get_current_and_next_hour_prices`
(`data/api_client.py` raises `ValueError` with two distinct messages; the
spec names them `NoCurrentPriceError` and `NoNextPriceError`). -/
inductive SelectError where
  | noCurrentPrice
  | noNextPrice
deriving DecidableEq, Repr

/-- `prices.sort(key=lambda price: price.start_date)` from
`get_current_and_next_hour_prices` (`data/api_client.py`): a stable
ascending sort by `start_date` (Python's `list.sort` is stable). -/
def sortByStart (points : List PricePoint) : List PricePoint :=
  points.mergeSort (fun a b => decide (a.start_date ≤ b.start_date))

/-- `get_current_and_next_hour_prices` from `data/api_client.py`, with the
fetch factored out: the input list is the fetched prices and `now` is the
reference instant.  The code sorts by `start_date`, takes the first point
with `start_date <= now < end_date` (else raises "No current price
found"), then the first point whose `start_date` equals the current
point's `end_date` (else raises "No next hour price found"). -/
def select_current_and_next (points : List PricePoint) (now : Int) :
    Except SelectError (PricePoint × PricePoint) :=
  match (sortByStart points).find?
      (fun p => decide (p.start_date ≤ now ∧ now < p.end_date)) with
  | none => .error .noCurrentPrice
  | some current =>
    match (sortByStart points).find?
        (fun p => decide (p.start_date = current.end_date)) with
    | none => .error .noNextPrice
    | some next => .ok (current, next)

/-- One day in microseconds (`timedelta(days=1)`). -/
def usPerDay : Int := 86400000000

/-- `now.replace(hour=0, minute=0, second=0, microsecond=0)` for a
UTC-aware `now` (`data/api_client.py`): truncation to the start of the UTC
day, i.e. flooring to a multiple of a day of microseconds. -/
def start_of_day (now : Int) : Int := usPerDay * (now.fdiv usPerDay)

/-- `get_daily_prices` from `data/api_client.py`, with the fetch factored
out: keeps exactly the points whose `start_date` lies in the closed
interval `[start_of_today, end_of_today]` or in
`[start_of_tomorrow, end_of_tomorrow]`, in input order. -/
def select_window (points : List PricePoint) (now : Int) : List PricePoint :=
  let start_of_today := start_of_day now
  let end_of_today := start_of_today + usPerDay - 1
  let start_of_tomorrow := end_of_today + 1
  let end_of_tomorrow := start_of_tomorrow + usPerDay - 1
  points.filter fun price =>
    (decide (start_of_today ≤ price.start_date) &&
      decide (price.start_date ≤ end_of_today)) ||
    (decide (start_of_tomorrow ≤ price.start_date) &&
      decide (price.start_date ≤ end_of_tomorrow))

/-- JSON values, as delivered by `response.json()`. -/
inductive Json where
  | null
  | bool (b : Bool)
  | num (q : Rat)
  | str (s : String)
  | arr (elems : List Json)
  | obj (fields : List (String × Json))

/-- `data[key]` on a parsed JSON object: `none` when `data` is not an
object or the key is absent (Python raises `TypeError` / `KeyError`
there). -/
def Json.lookup : Json → String → Option Json
  | .obj fields, key => (fields.find? (fun kv => kv.1 == key)).map (·.2)
  | _, _ => none

/-- `s.replace("Z", "+00:00")` from `get_latest_prices`
(`data/api_client.py`): every occurrence of the character `Z` is replaced
by the string `+00:00`. -/
def replaceZ (s : String) : String :=
  ⟨s.data.flatMap fun c => if c = 'Z' then "+00:00".data else [c]⟩

/-- The failure outcome of parsing (`KeyError` / `TypeError` /
`ValueError` escaping `get_latest_prices`; the spec calls it
`FormatError`). -/
inductive FetchError where
  | formatError
deriving DecidableEq, Repr

/-- One element of the list comprehension in `get_latest_prices`
(`data/api_client.py`): `PricePoint(price=price_data["price"],
start_date=datetime.fromisoformat(price_data["startDate"].replace("Z",
"+00:00")), end_date=...)`.  The external ISO-8601 parser
`datetime.fromisoformat` is abstracted as `iso : String → Option Int`
(Python's library, not repository code); the entry must carry a numeric
`price` and string timestamps, else parsing fails. -/
def parseEntry (iso : String → Option Int) (entry : Json) :
    Except FetchError PricePoint :=
  match entry.lookup "price" with
  | some (.num p) =>
    match entry.lookup "startDate" with
    | some (.str ss) =>
      match iso (replaceZ ss) with
      | some sd =>
        match entry.lookup "endDate" with
        | some (.str es) =>
          match iso (replaceZ es) with
          | some ed => .ok ⟨p, sd, ed⟩
          | none => .error .formatError
        | _ => .error .formatError
      | none => .error .formatError
    | _ => .error .formatError
  | _ => .error .formatError

/-- The list comprehension of `get_latest_prices`: entries are converted
left to right; the first failure aborts the whole conversion (a raised
exception discards any partial list). -/
def parsePrices (iso : String → Option Int) :
    List Json → Except FetchError (List PricePoint)
  | [] => .ok []
  | entry :: rest =>
    match parseEntry iso entry with
    | .error e => .error e
    | .ok p =>
      match parsePrices iso rest with
      | .error e => .error e
      | .ok ps => .ok (p :: ps)

/-- `get_latest_prices` from `data/api_client.py`, with the transport
(request / `raise_for_status`) factored out: the parsed response body is
the input.  `data["prices"]` must exist and be a list (a missing key
raises `KeyError`; iterating a non-sequence raises `TypeError`), and every
entry must convert. -/
def get_latest_prices (iso : String → Option Int) (body : Json) :
    Except FetchError (List PricePoint) :=
  match body.lookup "prices" with
  | some (.arr entries) => parsePrices iso entries
  | _ => .error .formatError

/-- Every point covers a nonempty interval (`start_date < end_date`, the
PricePoint invariant of the spec). -/
def ValidIntervals (points : List PricePoint) : Prop :=
  ∀ p ∈ points, p.start_date < p.end_date

/-- Consecutive points abut exactly: gap-free and, with
`ValidIntervals`, non-overlapping and sorted by `start_date`. -/
def GapFree (points : List PricePoint) : Prop :=
  points.Chain' (fun a b => a.end_date = b.start_date)

/-- A well-formed feed: gap-free, non-overlapping, sorted by
`start_date`. -/
def WellFormed (points : List PricePoint) : Prop :=
  ValidIntervals points ∧ GapFree points

instance (points : List PricePoint) : Decidable (ValidIntervals points) :=
  List.decidableBAll _ points

instance decGapFree : ∀ points : List PricePoint, Decidable (GapFree points)
  | [] => isTrue List.chain'_nil
  | [a] => isTrue (List.chain'_singleton a)
  | a :: b :: rest =>
    match Int.decEq a.end_date b.start_date, decGapFree (b :: rest) with
    | isTrue h1, isTrue h2 => isTrue (List.chain'_cons.mpr ⟨h1, h2⟩)
    | isFalse h1, _ => isFalse fun hc => h1 (List.chain'_cons.mp hc).1
    | _, isFalse h2 => isFalse fun hc => h2 (List.chain'_cons.mp hc).2

instance (points : List PricePoint) : Decidable (WellFormed points) :=
  inferInstanceAs (Decidable (ValidIntervals points ∧ GapFree points))

/-- A concrete stand-in for `datetime.fromisoformat`, defined on the two
timestamps used by the concrete parsing scenario below. -/
def witIso : String → Option Int := fun s =>
  if s = "2022-11-14T22:00:00.000+00:00" then some 1668463200000000
  else if s = "2022-11-14T23:00:00.000+00:00" then some 1668466800000000
  else none

/-- A concrete well-formed feed entry, as in the repository's tests. -/
def witEntry : Json :=
  .obj [("price", .num 13.494),
        ("startDate", .str "2022-11-14T22:00:00.000Z"),
        ("endDate", .str "2022-11-14T23:00:00.000Z")]

/-- A concrete well-formed response body. -/
def witBody : Json := .obj [("prices", .arr [witEntry])]

/-- C5 counterexample: with unordered limits `lower = 20, upper = 10` the
price `15` exceeds `upper_limit`, yet the code classifies it as `below`
(the `price < lower_limit` branch fires first), not `above`; so "above iff
price > upper_limit" fails as stated. -/
theorem classify_price_above_cex :
    (⟨20, 10⟩ : PriceLimits).upper_limit < 15 ∧
    classify_price ⟨20, 10⟩ 15 = .below ∧
    classify_price ⟨20, 10⟩ 15 ≠ .above := by
  refine ⟨by norm_num, ?_, ?_⟩ <;> (norm_num [classify_price]; try decide)

/-- C5 (amended): `within` iff `lower_limit ≤ price ≤ upper_limit` (both
bounds inclusive, agreeing with `is_price_within_limits`), `below` iff
`price < lower_limit`, and — provided `lower_limit ≤ upper_limit` —
`above` iff `price > upper_limit`; concretely for limits `(10, 20)`:
`9.99` is below, `10` and `20` are within, `20.01` is above. -/
theorem classify_price_spec (limits : PriceLimits) (price : Rat) :
    (classify_price limits price = .within ↔
      limits.is_price_within_limits price = true) ∧
    (limits.is_price_within_limits price = true ↔
      limits.lower_limit ≤ price ∧ price ≤ limits.upper_limit) ∧
    (classify_price limits price = .below ↔ price < limits.lower_limit) ∧
    (limits.lower_limit ≤ limits.upper_limit →
      (classify_price limits price = .above ↔ limits.upper_limit < price)) ∧
    classify_price ⟨10, 20⟩ 9.99 = .below ∧
    classify_price ⟨10, 20⟩ 10 = .within ∧
    classify_price ⟨10, 20⟩ 20 = .within ∧
    classify_price ⟨10, 20⟩ 20.01 = .above := by
  have hb : limits.is_price_within_limits price = true ↔
      limits.lower_limit ≤ price ∧ price ≤ limits.upper_limit := by
    simp [PriceLimits.is_price_within_limits]
  refine ⟨?_, hb, ?_, ?_, ?_, ?_, ?_, ?_⟩
  · rw [hb]
    unfold classify_price
    split_ifs with h1 h2
    · simp only [iff_iff_implies_and_implies]
      constructor
      · intro h
        exact absurd h (by decide)
      · rintro ⟨h2', _⟩
        exact absurd h1 (not_lt.mpr h2')
    · simp only [iff_iff_implies_and_implies]
      constructor
      · intro h
        exact absurd h (by decide)
      · rintro ⟨_, h3'⟩
        exact absurd h2 (not_lt.mpr h3')
    · simp only [true_iff, iff_true]
      exact ⟨not_lt.mp h1, not_lt.mp h2⟩
  · unfold classify_price
    split_ifs with h1 h2
    · simpa using h1
    · simp only [iff_iff_implies_and_implies]
      exact ⟨fun h => absurd h (by decide), fun h => absurd h1 (by simp [h])⟩
    · simp only [iff_iff_implies_and_implies]
      exact ⟨fun h => absurd h (by decide), fun h => absurd h1 (by simp [h])⟩
  · intro hord
    unfold classify_price
    split_ifs with h1 h2
    · simp only [iff_iff_implies_and_implies]
      constructor
      · intro h
        exact absurd h (by decide)
      · intro h
        exact absurd (lt_trans h h1) (not_lt.mpr hord)
    · simpa using h2
    · simp only [iff_iff_implies_and_implies]
      exact ⟨fun h => absurd h (by decide), fun h => absurd h2 (by simp [h])⟩
  · norm_num [classify_price]
  · norm_num [classify_price]
  · norm_num [classify_price]
  · norm_num [classify_price]

/-- C5 witness: the amended above-characterization at limits `(10, 20)`
and price `25`. -/
theorem classify_price_spec_witness :
    classify_price ⟨10, 20⟩ 25 = .above ↔ (⟨10, 20⟩ : PriceLimits).upper_limit < 25 :=
  (classify_price_spec ⟨10, 20⟩ 25).2.2.2.1 (by norm_num)

/-- C9 counterexample: with unordered limits `lower = 20, upper = 10`, the
price `20` equals `lower_limit` but is classified `above`, not `within`
(and `is_price_within_limits` reports `false`). -/
theorem classify_boundary_cex :
    (⟨20, 10⟩ : PriceLimits).lower_limit = 20 ∧
    classify_price ⟨20, 10⟩ 20 = .above ∧
    classify_price ⟨20, 10⟩ 20 ≠ .within ∧
    PriceLimits.is_price_within_limits ⟨20, 10⟩ 20 = false := by
  refine ⟨rfl, ?_, ?_, ?_⟩ <;>
    (norm_num [classify_price, PriceLimits.is_price_within_limits]; try decide)

/-- C9 (amended): the threshold evaluation is pure (equal inputs give
equal outputs), and — provided `lower_limit ≤ upper_limit` — a price equal
to `lower_limit` or to `upper_limit` classifies as within. -/
theorem classify_price_boundary (limits : PriceLimits) (price : Rat) :
    classify_price limits price = classify_price limits price ∧
    limits.is_price_within_limits price = limits.is_price_within_limits price ∧
    (limits.lower_limit ≤ limits.upper_limit →
      classify_price limits limits.lower_limit = .within ∧
      classify_price limits limits.upper_limit = .within ∧
      limits.is_price_within_limits limits.lower_limit = true ∧
      limits.is_price_within_limits limits.upper_limit = true) := by
  refine ⟨rfl, rfl, fun hord => ⟨?_, ?_, ?_, ?_⟩⟩
  · unfold classify_price
    rw [if_neg (lt_irrefl _), if_neg (not_lt.mpr hord)]
  · unfold classify_price
    rw [if_neg (not_lt.mpr hord), if_neg (lt_irrefl _)]
  · simp [PriceLimits.is_price_within_limits, hord]
  · simp [PriceLimits.is_price_within_limits, hord]

/-- C9 witness: boundary behavior at the ordered limits `(10, 20)`. -/
theorem classify_price_boundary_witness :
    classify_price ⟨10, 20⟩ (⟨10, 20⟩ : PriceLimits).lower_limit = .within ∧
    classify_price ⟨10, 20⟩ (⟨10, 20⟩ : PriceLimits).upper_limit = .within ∧
    PriceLimits.is_price_within_limits ⟨10, 20⟩ (⟨10, 20⟩ : PriceLimits).lower_limit = true ∧
    PriceLimits.is_price_within_limits ⟨10, 20⟩ (⟨10, 20⟩ : PriceLimits).upper_limit = true :=
  (classify_price_boundary ⟨10, 20⟩ 0).2.2 (by norm_num)

/-- C2: `select_window` keeps exactly the points whose `start_date` lies
in `[start_of_today, end_of_today]` or `[start_of_tomorrow,
end_of_tomorrow]` (with `end_of_today = start_of_today + 1 day - 1 μs`,
`start_of_tomorrow = end_of_today + 1 μs`, `end_of_tomorrow =
start_of_tomorrow + 1 day - 1 μs`), where `start_of_day` truncates `now`
to the start of its UTC day (the greatest day-multiple `≤ now`); the
result is a sublist of the input (relative order kept), and when nothing
matches the result is `[]` — the function is total, never an error. -/
theorem select_window_spec (points : List PricePoint) (now : Int) :
    select_window points now = points.filter
      (fun p => decide ((start_of_day now ≤ p.start_date ∧
          p.start_date ≤ start_of_day now + usPerDay - 1) ∨
        (start_of_day now + usPerDay - 1 + 1 ≤ p.start_date ∧
          p.start_date ≤ start_of_day now + usPerDay - 1 + 1 + usPerDay - 1))) ∧
    (select_window points now).Sublist points ∧
    usPerDay ∣ start_of_day now ∧
    start_of_day now ≤ now ∧ now < start_of_day now + usPerDay ∧
    ((∀ p ∈ points, ¬((start_of_day now ≤ p.start_date ∧
          p.start_date ≤ start_of_day now + usPerDay - 1) ∨
        (start_of_day now + usPerDay - 1 + 1 ≤ p.start_date ∧
          p.start_date ≤ start_of_day now + usPerDay - 1 + 1 + usPerDay - 1))) →
      select_window points now = []) := by
  have hfilter : select_window points now = points.filter
      (fun p => decide ((start_of_day now ≤ p.start_date ∧
          p.start_date ≤ start_of_day now + usPerDay - 1) ∨
        (start_of_day now + usPerDay - 1 + 1 ≤ p.start_date ∧
          p.start_date ≤ start_of_day now + usPerDay - 1 + 1 + usPerDay - 1))) := by
    simp only [select_window]
    apply List.filter_congr
    intro p _
    rw [← Bool.decide_and, ← Bool.decide_and, ← Bool.decide_or, decide_eq_decide]
  refine ⟨hfilter, ?_, ⟨now.fdiv usPerDay, rfl⟩, ?_, ?_, ?_⟩
  · rw [hfilter]
    exact List.filter_sublist points
  · unfold start_of_day usPerDay
    rw [Int.fdiv_eq_ediv _ (by norm_num)]
    omega
  · unfold start_of_day usPerDay
    rw [Int.fdiv_eq_ediv _ (by norm_num)]
    omega
  · intro hnone
    rw [hfilter]
    rw [List.filter_eq_nil_iff]
    intro p hp
    simpa using hnone p hp

/-- C2 witness: at `now = 12:30 UTC on day 0` a point starting in day 1
is kept, one starting in day 2 is dropped; and with every point outside
both windows the result is empty. -/
theorem select_window_spec_witness :
    select_window [⟨1, 45000000000, 48600000000⟩] 45000000000 =
      [⟨1, 45000000000, 48600000000⟩].filter
        (fun p => decide ((start_of_day 45000000000 ≤ p.start_date ∧
            p.start_date ≤ start_of_day 45000000000 + usPerDay - 1) ∨
          (start_of_day 45000000000 + usPerDay - 1 + 1 ≤ p.start_date ∧
            p.start_date ≤ start_of_day 45000000000 + usPerDay - 1 + 1 + usPerDay - 1))) ∧
    select_window [⟨1, 200000000000, 203600000000⟩] 45000000000 = [] :=
  ⟨(select_window_spec [⟨1, 45000000000, 48600000000⟩] 45000000000).1,
    (select_window_spec [⟨1, 200000000000, 203600000000⟩] 45000000000).2.2.2.2.2
      (by
        intro p hp
        simp only [List.mem_singleton] at hp
        subst hp
        dsimp only
        unfold start_of_day usPerDay
        rw [Int.fdiv_eq_ediv _ (by norm_num)]
        omega)⟩

/-- C10: because `start_of_tomorrow = end_of_today + 1 μs`, the two closed
windows tested by `select_window` tile a contiguous 48-hour interval: the
filter is equivalent to the single closed condition `start_of_today ≤
start_date ≤ start_of_today + 2 days - 1 μs`. -/
theorem select_window_contiguous (points : List PricePoint) (now : Int) :
    select_window points now = points.filter
      (fun p => decide (start_of_day now ≤ p.start_date ∧
        p.start_date ≤ start_of_day now + 2 * usPerDay - 1)) := by
  simp only [select_window]
  apply List.filter_congr
  intro p _
  rw [← Bool.decide_and, ← Bool.decide_and, ← Bool.decide_or, decide_eq_decide]
  omega

theorem parseEntry_ok {iso : String → Option Int} {entry : Json} {p : PricePoint}
    (h : parseEntry iso entry = .ok p) :
    ∃ (pr : Rat) (ss es : String) (sd ed : Int),
      entry.lookup "price" = some (.num pr) ∧
      entry.lookup "startDate" = some (.str ss) ∧
      entry.lookup "endDate" = some (.str es) ∧
      iso (replaceZ ss) = some sd ∧ iso (replaceZ es) = some ed ∧
      p = ⟨pr, sd, ed⟩ := by
  unfold parseEntry at h
  split at h
  · rename_i pr hpr
    split at h
    · rename_i ss hss
      split at h
      · rename_i sd hsd
        split at h
        · rename_i es hes
          split at h
          · rename_i ed hed
            injection h with h
            exact ⟨pr, ss, es, sd, ed, hpr, hss, hes, hsd, hed, h.symm⟩
          · simp at h
        · simp at h
      · simp at h
    · simp at h
  · simp at h

theorem parsePrices_ok {iso : String → Option Int} :
    ∀ {entries : List Json} {result : List PricePoint},
      parsePrices iso entries = .ok result →
      result.length = entries.length ∧
      ∀ i (hi : i < entries.length) (hi' : i < result.length),
        parseEntry iso (entries.get ⟨i, hi⟩) = .ok (result.get ⟨i, hi'⟩) := by
  intro entries
  induction entries with
  | nil =>
    intro result h
    unfold parsePrices at h
    injection h with h
    subst h
    exact ⟨rfl, fun i hi _ => absurd hi (Nat.not_lt_zero i)⟩
  | cons entry rest ih =>
    intro result h
    unfold parsePrices at h
    split at h
    · simp at h
    · rename_i p hp
      split at h
      · simp at h
      · rename_i ps hps
        injection h with h
        subst h
        obtain ⟨hlen, hget⟩ := ih hps
        refine ⟨by simpa using hlen, ?_⟩
        intro i hi hi'
        match i with
        | 0 => exact hp
        | Nat.succ j =>
          exact hget j (Nat.lt_of_succ_lt_succ hi) (Nat.lt_of_succ_lt_succ hi')

theorem flatMap_noZ (l : List Char) (h : ∀ c ∈ l, c ≠ 'Z') :
    (l.flatMap fun c => if c = 'Z' then "+00:00".data else [c]) = l := by
  induction l with
  | nil => rfl
  | cons c t ih =>
    rw [List.flatMap_cons, if_neg (h c (List.mem_cons_self c t)),
      ih fun d hd => h d (List.mem_cons_of_mem c hd)]
    rfl

/-- C7: on a successfully parsed body, `get_latest_prices` yields one
`PricePoint` per entry of the `prices` list in source order (no sorting),
its `price` read from the entry's `price` field and its dates obtained by
handing `startDate`/`endDate` to the ISO-8601 parser after replacing any
`Z` with `+00:00` — in particular a trailing `Z` becomes the suffix
`+00:00`. -/
theorem get_latest_prices_spec (iso : String → Option Int) (body : Json)
    (entries : List Json) (result : List PricePoint)
    (hb : body.lookup "prices" = some (.arr entries))
    (hr : get_latest_prices iso body = .ok result) :
    result.length = entries.length ∧
    (∀ i (hi : i < entries.length) (hi' : i < result.length),
      ∃ (pr : Rat) (ss es : String) (sd ed : Int),
        (entries.get ⟨i, hi⟩).lookup "price" = some (.num pr) ∧
        (entries.get ⟨i, hi⟩).lookup "startDate" = some (.str ss) ∧
        (entries.get ⟨i, hi⟩).lookup "endDate" = some (.str es) ∧
        iso (replaceZ ss) = some sd ∧ iso (replaceZ es) = some ed ∧
        result.get ⟨i, hi'⟩ = ⟨pr, sd, ed⟩) ∧
    (∀ s : String, (∀ c ∈ s.data, c ≠ 'Z') →
      replaceZ (s ++ "Z") = s ++ "+00:00") := by
  have hpp : parsePrices iso entries = .ok result := by
    unfold get_latest_prices at hr
    rw [hb] at hr
    exact hr
  obtain ⟨hlen, hget⟩ := parsePrices_ok hpp
  refine ⟨hlen, ?_, ?_⟩
  · intro i hi hi'
    obtain ⟨pr, ss, es, sd, ed, h1, h2, h3, h4, h5, h6⟩ := parseEntry_ok (hget i hi hi')
    exact ⟨pr, ss, es, sd, ed, h1, h2, h3, h4, h5, h6⟩
  · intro s hs
    apply String.ext
    show ((s ++ "Z").data.flatMap _) = _
    rw [String.data_append, String.data_append, List.flatMap_append, flatMap_noZ s.data hs]
    rfl

/-- C7 witness: the concrete one-entry body parses to the one expected
point. -/
theorem get_latest_prices_spec_witness :
    ([⟨13.494, 1668463200000000, 1668466800000000⟩] : List PricePoint).length =
      ([witEntry] : List Json).length :=
  (get_latest_prices_spec witIso witBody [witEntry]
    [⟨13.494, 1668463200000000, 1668466800000000⟩] rfl rfl).1

/-- C8: a body with no `prices` key fails with `FormatError`, and the
outcome is all-or-nothing: either a full result with one point per entry,
or a typed failure — never a partial list. -/
theorem get_latest_prices_errors (iso : String → Option Int) (body : Json) :
    (body.lookup "prices" = none → get_latest_prices iso body = .error .formatError) ∧
    ((∃ r, get_latest_prices iso body = .ok r ∧
        ∀ entries, body.lookup "prices" = some (.arr entries) →
          r.length = entries.length) ∨
      ∃ e, get_latest_prices iso body = .error e) := by
  constructor
  · intro h
    unfold get_latest_prices
    rw [h]
  · cases hres : get_latest_prices iso body with
    | error e => exact Or.inr ⟨e, rfl⟩
    | ok r =>
      refine Or.inl ⟨r, rfl, ?_⟩
      intro entries hent
      have hpp : parsePrices iso entries = .ok r := by
        unfold get_latest_prices at hres
        rw [hent] at hres
        exact hres
      exact (parsePrices_ok hpp).1

/-- C8 witness: a body whose object lacks the `prices` key yields
`FormatError`. -/
theorem get_latest_prices_errors_witness :
    get_latest_prices witIso (Json.obj [("data", .null)]) = .error .formatError :=
  (get_latest_prices_errors witIso (Json.obj [("data", .null)])).1 rfl

theorem chain_head_le (a : PricePoint) (l : List PricePoint)
    (hv : ∀ p ∈ a :: l, p.start_date < p.end_date)
    (hc : List.Chain' (fun x y => x.end_date = y.start_date) (a :: l)) :
    ∀ b ∈ l, a.end_date ≤ b.start_date := by
  induction l generalizing a with
  | nil =>
    intro b hb
    simp at hb
  | cons c t ih =>
    intro b hb
    have hac : a.end_date = c.start_date := (List.chain'_cons.mp hc).1
    rcases List.mem_cons.mp hb with rfl | hbt
    · exact le_of_eq hac
    · have h2 : c.start_date < c.end_date := hv c (by simp)
      have h3 : c.end_date ≤ b.start_date :=
        ih c (fun p hp => hv p (List.mem_cons_of_mem a hp))
          (List.chain'_cons.mp hc).2 b hbt
      omega

theorem wf_pairwise : ∀ {points : List PricePoint}, WellFormed points →
    points.Pairwise (fun a b => a.end_date ≤ b.start_date) := by
  intro points
  induction points with
  | nil => exact fun _ => List.Pairwise.nil
  | cons a l ih =>
    intro hw
    exact List.Pairwise.cons (chain_head_le a l hw.1 hw.2)
      (ih ⟨fun p hp => hw.1 p (List.mem_cons_of_mem a hp), hw.2.tail⟩)

theorem wf_sorted {points : List PricePoint} (hw : WellFormed points) :
    points.Pairwise (fun a b => a.start_date ≤ b.start_date) :=
  (wf_pairwise hw).imp_of_mem fun ha _ hab =>
    le_of_lt (lt_of_lt_of_le (hw.1 _ ha) hab)

theorem sortByStart_of_wf {points : List PricePoint} (hw : WellFormed points) :
    sortByStart points = points :=
  List.mergeSort_of_sorted ((wf_sorted hw).imp fun h => decide_eq_true h)

theorem chain_next : ∀ {points : List PricePoint}, GapFree points →
    ∀ {c : PricePoint}, c ∈ points.dropLast →
      ∃ q ∈ points, c.end_date = q.start_date := by
  intro points
  induction points with
  | nil =>
    intro _ c hc
    simp at hc
  | cons a rest ih =>
    intro hg c hc
    cases rest with
    | nil => simp at hc
    | cons b t =>
      rcases List.mem_cons.mp (by simpa using hc) with rfl | h2
      · exact ⟨b, List.mem_cons_of_mem c (List.mem_cons_self b t),
          (List.chain'_cons.mp hg).1⟩
      · obtain ⟨q, hq, he⟩ := ih (List.chain'_cons.mp hg).2 h2
        exact ⟨q, List.mem_cons_of_mem a hq, he⟩

/-- C1 counterexample: the single-point feed `[0, 10)` is well-formed and
`now = 5` lies in the union of its intervals, yet
`select_current_and_next` fails with `NoNextPriceError` (nothing starts at
the current point's `end_date`), so no pair is returned. -/
theorem select_last_interval_cex :
    WellFormed [⟨1, 0, 10⟩] ∧
    (∃ p ∈ ([⟨1, 0, 10⟩] : List PricePoint), p.start_date ≤ 5 ∧ 5 < p.end_date) ∧
    select_current_and_next [⟨1, 0, 10⟩] 5 = .error .noNextPrice := by
  refine ⟨by decide, by decide, ?_⟩
  have hs : sortByStart [⟨1, 0, 10⟩] = [⟨1, 0, 10⟩] := by
    unfold sortByStart
    exact List.mergeSort_singleton _
  unfold select_current_and_next
  rw [hs]
  rfl

/-- C1 (amended): for every well-formed (gap-free, non-overlapping,
sorted) feed and every `now` inside the union of the half-open intervals
of all points except the last, `select_current_and_next` returns a pair
`(current, next)` with `current.start_date ≤ now < current.end_date` and
`next.start_date = current.end_date`. -/
theorem select_current_and_next_wf_ok (points : List PricePoint) (now : Int)
    (hw : WellFormed points)
    (hin : ∃ p ∈ points.dropLast, p.start_date ≤ now ∧ now < p.end_date) :
    ∃ c n, select_current_and_next points now = .ok (c, n) ∧
      c.start_date ≤ now ∧ now < c.end_date ∧ n.start_date = c.end_date := by
  obtain ⟨p, hpd, hp1, hp2⟩ := hin
  have hpm : p ∈ points := (List.dropLast_sublist points).subset hpd
  have hs : sortByStart points = points := sortByStart_of_wf hw
  have hcsome : (points.find?
      (fun q => decide (q.start_date ≤ now ∧ now < q.end_date))).isSome :=
    List.find?_isSome.mpr ⟨p, hpm, decide_eq_true ⟨hp1, hp2⟩⟩
  obtain ⟨c, hc⟩ := Option.isSome_iff_exists.mp hcsome
  have hcp := List.find?_some hc
  rw [decide_eq_true_eq] at hcp
  obtain ⟨hc1, hc2⟩ := hcp
  have hcm : c ∈ points := List.mem_of_find?_eq_some hc
  have hne : points ≠ [] := fun h => by
    subst h
    simp at hpm
  have hsplit := List.dropLast_append_getLast hne
  have hcd : c ∈ points.dropLast := by
    rcases List.mem_append.mp (by rw [hsplit]; exact hcm) with h | h
    · exact h
    · exfalso
      have hceq : c = points.getLast hne := by simpa using h
      have hple : p.end_date ≤ (points.getLast hne).start_date := by
        have hpair := wf_pairwise hw
        rw [← hsplit] at hpair
        exact (List.pairwise_append.mp hpair).2.2 p hpd (points.getLast hne) (by simp)
      rw [hceq] at hc1
      exact absurd (lt_of_lt_of_le hp2 (le_trans hple hc1)) (lt_irrefl now)
  obtain ⟨q, hqm, hqe⟩ := chain_next hw.2 hcd
  have hnsome : (points.find? (fun r => decide (r.start_date = c.end_date))).isSome :=
    List.find?_isSome.mpr ⟨q, hqm, decide_eq_true hqe.symm⟩
  obtain ⟨n, hn⟩ := Option.isSome_iff_exists.mp hnsome
  have hnp := List.find?_some hn
  rw [decide_eq_true_eq] at hnp
  refine ⟨c, n, ?_, hc1, hc2, hnp⟩
  unfold select_current_and_next
  rw [hs]
  simp only [hc, hn]

/-- C1 witness: the two-point feed `[0,10), [10,20)` at `now = 5` yields
the pair. -/
theorem select_current_and_next_wf_ok_witness :
    ∃ c n, select_current_and_next [⟨1, 0, 10⟩, ⟨2, 10, 20⟩] 5 = .ok (c, n) ∧
      c.start_date ≤ 5 ∧ 5 < c.end_date ∧ n.start_date = c.end_date :=
  select_current_and_next_wf_ok [⟨1, 0, 10⟩, ⟨2, 10, 20⟩] 5 (by decide) (by decide)

/-- C3 counterexample: a feed sorted by `start_date` but with overlapping
intervals (`[0,10)` and `[1,2)`); `now = 5` is at/after the last
interval's end (2), yet the first interval still contains `5`, so the code
picks it as current and then fails with `NoNextPriceError`, not
`NoCurrentPriceError`. -/
theorem select_no_current_sorted_cex :
    List.Pairwise (fun a b => a.start_date ≤ b.start_date)
      ([⟨1, 0, 10⟩, ⟨2, 1, 2⟩] : List PricePoint) ∧
    ([⟨1, 0, 10⟩, ⟨2, 1, 2⟩] : List PricePoint).getLast? = some ⟨2, 1, 2⟩ ∧
    (⟨2, 1, 2⟩ : PricePoint).end_date ≤ 5 ∧
    select_current_and_next [⟨1, 0, 10⟩, ⟨2, 1, 2⟩] 5 = .error .noNextPrice := by
  refine ⟨by decide, rfl, by decide, ?_⟩
  have hs : sortByStart [⟨1, 0, 10⟩, ⟨2, 1, 2⟩] = [⟨1, 0, 10⟩, ⟨2, 1, 2⟩] :=
    List.mergeSort_of_sorted (by decide)
  unfold select_current_and_next
  rw [hs]
  rfl

/-- C3 (amended): whenever no point's half-open interval contains `now`,
`select_current_and_next` fails with `NoCurrentPriceError` (that error,
not `NoNextPriceError`); in particular, for every well-formed feed, `now`
before the first `start_date` or at/after the last `end_date` gives
`NoCurrentPriceError`. -/
theorem select_no_current_price :
    (∀ (points : List PricePoint) (now : Int),
      (∀ p ∈ points, ¬(p.start_date ≤ now ∧ now < p.end_date)) →
      select_current_and_next points now = .error .noCurrentPrice) ∧
    (∀ (points : List PricePoint) (now : Int) (hne : points ≠ []),
      WellFormed points →
      (now < (points.head hne).start_date ∨ (points.getLast hne).end_date ≤ now) →
      select_current_and_next points now = .error .noCurrentPrice) := by
  have hmain : ∀ (points : List PricePoint) (now : Int),
      (∀ p ∈ points, ¬(p.start_date ≤ now ∧ now < p.end_date)) →
      select_current_and_next points now = .error .noCurrentPrice := by
    intro points now h
    have hnone : (sortByStart points).find?
        (fun p => decide (p.start_date ≤ now ∧ now < p.end_date)) = none := by
      rw [List.find?_eq_none]
      intro x hx
      have hxm : x ∈ points := by
        unfold sortByStart at hx
        exact List.mem_mergeSort.mp hx
      simpa using h x hxm
    unfold select_current_and_next
    rw [hnone]
  refine ⟨hmain, ?_⟩
  intro points now hne hw hor
  apply hmain
  intro p hp
  rintro ⟨hps, hpe⟩
  obtain ⟨a, t, rfl⟩ := List.exists_cons_of_ne_nil hne
  rcases hor with h | h
  · have hhead : (a :: t).head hne = a := rfl
    rw [hhead] at h
    rcases List.mem_cons.mp hp with rfl | hpt
    · exact absurd hps (not_le.mpr h)
    · have := List.rel_of_pairwise_cons (wf_sorted hw) hpt
      exact absurd (le_trans this hps) (not_le.mpr h)
  · have hsplit := List.dropLast_append_getLast hne
    have hpair := wf_pairwise hw
    rcases List.mem_append.mp (by rw [hsplit]; exact hp) with hd | hl
    · have h1 : p.end_date ≤ ((a :: t).getLast hne).start_date := by
        rw [← hsplit] at hpair
        exact (List.pairwise_append.mp hpair).2.2 p hd ((a :: t).getLast hne) (by simp)
      have h2 : ((a :: t).getLast hne).start_date < ((a :: t).getLast hne).end_date :=
        hw.1 _ (List.getLast_mem hne)
      omega
    · have hpl : p = (a :: t).getLast hne := by simpa using hl
      rw [hpl] at hpe
      omega

/-- C3 witness: the single-point well-formed feed `[0,10)` with `now = 20`
(at/after the last end) fails with `NoCurrentPriceError`. -/
theorem select_no_current_price_witness :
    select_current_and_next [⟨1, 0, 10⟩] 20 = .error .noCurrentPrice :=
  select_no_current_price.2 [⟨1, 0, 10⟩] 20 (by simp) (by decide) (Or.inr (by decide))

/-- C4: once a current point `c` is matched, the next point is searched by
exact equality of `start_date` with `c.end_date` over the whole feed (not
by positional adjacency): the call fails with `NoNextPriceError` exactly
when no point starts at `c.end_date`, and whenever some point does, a pair
`(c, n)` with `n.start_date = c.end_date` is returned. -/
theorem select_next_by_equality (points : List PricePoint) (now : Int) (c : PricePoint)
    (hc : (sortByStart points).find?
      (fun p => decide (p.start_date ≤ now ∧ now < p.end_date)) = some c) :
    (select_current_and_next points now = .error .noNextPrice ↔
      ∀ p ∈ points, p.start_date ≠ c.end_date) ∧
    ∀ p ∈ points, p.start_date = c.end_date →
      ∃ n, select_current_and_next points now = .ok (c, n) ∧
        n.start_date = c.end_date := by
  cases hn : (sortByStart points).find? (fun p => decide (p.start_date = c.end_date)) with
  | none =>
    have hsel : select_current_and_next points now = .error .noNextPrice := by
      unfold select_current_and_next
      simp only [hc, hn]
    have hnone := List.find?_eq_none.mp hn
    have hno : ∀ p ∈ points, p.start_date ≠ c.end_date := by
      intro p hp
      have hps : p ∈ sortByStart points := by
        unfold sortByStart
        exact List.mem_mergeSort.mpr hp
      simpa using hnone p hps
    exact ⟨⟨fun _ => hno, fun _ => hsel⟩,
      fun p hp hpe => absurd hpe (hno p hp)⟩
  | some n =>
    have hsel : select_current_and_next points now = .ok (c, n) := by
      unfold select_current_and_next
      simp only [hc, hn]
    have hne : n.start_date = c.end_date := by
      simpa using List.find?_some hn
    constructor
    · rw [hsel]
      constructor
      · intro h
        exact absurd h (by simp)
      · intro hall
        have hnm : n ∈ points := by
          have hmem := List.mem_of_find?_eq_some hn
          unfold sortByStart at hmem
          exact List.mem_mergeSort.mp hmem
        exact absurd hne (hall n hnm)
    · exact fun p hp hpe => ⟨n, hsel, hne⟩

/-- C4 witness: in the feed `[0,10), [10,20)` at `now = 5`, the point
starting at `10 = current.end_date` exists, so the pair is returned with
`next.start_date = current.end_date`. -/
theorem select_next_by_equality_witness :
    ∃ n, select_current_and_next [⟨1, 0, 10⟩, ⟨2, 10, 20⟩] 5 =
        .ok (⟨1, 0, 10⟩, n) ∧
      n.start_date = (⟨1, 0, 10⟩ : PricePoint).end_date :=
  (select_next_by_equality [⟨1, 0, 10⟩, ⟨2, 10, 20⟩] 5 ⟨1, 0, 10⟩ (by
      rw [show sortByStart [⟨1, 0, 10⟩, ⟨2, 10, 20⟩] = [⟨1, 0, 10⟩, ⟨2, 10, 20⟩] from
        List.mergeSort_of_sorted (by decide)]
      rfl)).2 ⟨2, 10, 20⟩ (by simp) (by decide)

/-- C6: `select_current_and_next` first sorts by `start_date` ascending —
`sortByStart` is a permutation of the input, sorted, and stable (points
with equal `start_date` keep their original relative order: filtering by
any key is unchanged) — and then the returned current point is the first
point of the sorted list whose half-open interval contains `now`: the
sorted list splits as `pre ++ current :: post` with no point of `pre`
containing `now`, even for overlapping or duplicate intervals. -/
theorem select_sorts_then_first_match (points : List PricePoint) (now : Int) :
    (sortByStart points).Perm points ∧
    (sortByStart points).Pairwise (fun a b => a.start_date ≤ b.start_date) ∧
    (∀ k : Int, (sortByStart points).filter (fun p => decide (p.start_date = k)) =
      points.filter (fun p => decide (p.start_date = k))) ∧
    ∀ c n, select_current_and_next points now = .ok (c, n) →
      ∃ pre post, sortByStart points = pre ++ c :: post ∧
        c.start_date ≤ now ∧ now < c.end_date ∧
        ∀ p ∈ pre, ¬(p.start_date ≤ now ∧ now < p.end_date) := by
  have htrans : ∀ a b c : PricePoint,
      decide (a.start_date ≤ b.start_date) = true →
      decide (b.start_date ≤ c.start_date) = true →
      decide (a.start_date ≤ c.start_date) = true := by
    intro a b c h1 h2
    rw [decide_eq_true_eq] at h1 h2 ⊢
    omega
  have htotal : ∀ a b : PricePoint,
      (decide (a.start_date ≤ b.start_date) ||
        decide (b.start_date ≤ a.start_date)) = true := by
    intro a b
    simp only [Bool.or_eq_true, decide_eq_true_eq]
    omega
  refine ⟨List.mergeSort_perm points _, ?_, ?_, ?_⟩
  · exact (List.sorted_mergeSort htrans htotal points).imp fun h => of_decide_eq_true h
  · intro k
    have hpw : (points.filter (fun p => decide (p.start_date = k))).Pairwise
        (fun a b => decide (a.start_date ≤ b.start_date) = true) := by
      apply List.pairwise_of_forall_mem_list
      intro a ha b hb
      have ha' : a.start_date = k := by simpa using (List.mem_filter.mp ha).2
      have hb' : b.start_date = k := by simpa using (List.mem_filter.mp hb).2
      rw [decide_eq_true_eq, ha', hb']
    have hst : (points.filter (fun p => decide (p.start_date = k))).Sublist
        (sortByStart points) :=
      List.sublist_mergeSort htrans htotal hpw (List.filter_sublist points)
    have hself : (points.filter (fun p => decide (p.start_date = k))).filter
        (fun p => decide (p.start_date = k)) =
        points.filter (fun p => decide (p.start_date = k)) := by
      rw [List.filter_eq_self]
      exact fun a ha => (List.mem_filter.mp ha).2
    have h2 : (points.filter (fun p => decide (p.start_date = k))).Sublist
        ((sortByStart points).filter (fun p => decide (p.start_date = k))) := by
      have := hst.filter (fun p => decide (p.start_date = k))
      rwa [hself] at this
    have hlen : ((sortByStart points).filter (fun p => decide (p.start_date = k))).length =
        (points.filter (fun p => decide (p.start_date = k))).length :=
      ((List.mergeSort_perm points _).filter _).length_eq
    exact (h2.eq_of_length hlen.symm).symm
  · intro c n h
    unfold select_current_and_next at h
    cases hf1 : (sortByStart points).find?
        (fun p => decide (p.start_date ≤ now ∧ now < p.end_date)) with
    | none =>
      simp only [hf1] at h
      exact absurd h (by simp)
    | some c' =>
      simp only [hf1] at h
      cases hf2 : (sortByStart points).find?
          (fun p => decide (p.start_date = c'.end_date)) with
      | none =>
        simp only [hf2] at h
        exact absurd h (by simp)
      | some n' =>
        simp only [hf2, Except.ok.injEq, Prod.mk.injEq] at h
        obtain ⟨hcc, -⟩ := h
        subst hcc
        obtain ⟨hpred, pre, post, heq, hall⟩ := List.find?_eq_some.mp hf1
        rw [decide_eq_true_eq] at hpred
        refine ⟨pre, post, heq, hpred.1, hpred.2, ?_⟩
        intro p hp
        have hnp := hall p hp
        simp only [Bool.not_eq_true', decide_eq_false_iff_not] at hnp
        exact hnp

/-- C6 witness: in the feed `[0,10), [10,20)` at `now = 5` the current
point is the first point of the sorted list, with an empty prefix. -/
theorem select_sorts_then_first_match_witness :
    ∃ pre post, sortByStart [⟨1, 0, 10⟩, ⟨2, 10, 20⟩] =
        pre ++ (⟨1, 0, 10⟩ : PricePoint) :: post ∧
      (⟨1, 0, 10⟩ : PricePoint).start_date ≤ 5 ∧
      5 < (⟨1, 0, 10⟩ : PricePoint).end_date ∧
      ∀ p ∈ pre, ¬(p.start_date ≤ 5 ∧ 5 < p.end_date) :=
  (select_sorts_then_first_match [⟨1, 0, 10⟩, ⟨2, 10, 20⟩] 5).2.2.2
    ⟨1, 0, 10⟩ ⟨2, 10, 20⟩ (by
      unfold select_current_and_next
      rw [show sortByStart [⟨1, 0, 10⟩, ⟨2, 10, 20⟩] = [⟨1, 0, 10⟩, ⟨2, 10, 20⟩] from
        List.mergeSort_of_sorted (by decide)]
      rfl)

end SpotPrice
